import Mathlib

/-!
A shallow embedding of the oplog replication engine (package oplog,
files oplog.go and the earlier revision of the same file) together with
the parts of the identifier model that the repository's sources reference
but do not contain (they live in a file that is not part of the snapshot);
those are modelled from the specification and marked as such.

Conventions of the embedding:
- machine timestamps are natural numbers counting milliseconds;
- bson object ids are modelled by their two ordered components
  (creation time, remaining bytes), compared lexicographically;
- the Mongo collections are lists: the capped op-log in insertion
  ($natural) order, the states collection in unspecified order;
- queries become Boolean predicates over documents, `Sort("ts")` becomes
  an insertion sort on the ts field, `Limit(n)` becomes `List.take n`;
- the store is frozen and error free: iterator errors, sleeps, session
  refreshes and channel mechanics are outside the model, so a run of
  `Tail` is modelled by the events it emits through its first pass over
  the frozen store (later passes emit nothing new on a frozen store).
-/

/-- Modelled from the spec: a bson object id, reduced to the fields the
code observes: its embedded creation time (milliseconds here) and the
remaining machine/process/counter bytes as one number.  Ids compare
lexicographically on (time, rest), which matches byte-wise comparison of
real object ids. -/
structure ObjectId where
  time : Nat
  rest : Nat
deriving DecidableEq, Repr

/-- Modelled from the spec: strict order on object ids (the `$gt` of a
Mongo `_id` query). -/
def ObjectId.lt (a b : ObjectId) : Bool :=
  a.time < b.time || (a.time == b.time && a.rest < b.rest)

/-- The payload of an operation (struct OperationData of the missing
types file; fields modelled from the spec data model and from the bson
keys `data.id`, `data.t`, `data.p`, `data.ts` used by the queries in the
sources). -/
structure OperationData where
  ID : String
  T : String
  P : List String
  Timestamp : Nat
deriving DecidableEq, Repr

/-- Modelled from the spec: `GetID` returns the canonical `type/id`
string used as the state collection primary key. -/
def OperationData.GetID (d : OperationData) : String :=
  d.T ++ "/" ++ d.ID

/-- struct Operation: the unit of ingest and live streaming.  `ID` is a
pointer in the source, hence an `Option`. -/
structure Operation where
  ID : Option ObjectId
  Event : String
  Data : OperationData
deriving DecidableEq, Repr

/-- struct objectState (oplog.go lines 154-159 construct it): the latest
known state of one object.  `Timestamp` is the append wall-clock time
(bson key `ts`); `Data.Timestamp` is the source-side time. -/
structure objectState where
  ID : String
  Event : String
  Timestamp : Nat
  Data : OperationData
deriving DecidableEq, Repr

/-- The LastID cursor: a tagged variant of OperationLastID (wrapping an
object id) and ReplicationLastID (an int64 of milliseconds plus the
fallback flag), as dispatched on in oplog.go lines 277, 322, 370. -/
inductive LastID where
  | operation (oid : ObjectId)
  | replication (int64 : Int) (fallbackMode : Bool)
deriving DecidableEq, Repr

/-- Modelled from the spec: `Time()` of a cursor.  An operation id
carries its creation time; a replication id is itself a millisecond
timestamp.  The sources call it only on ids whose timestamp is
nonnegative (oplog.go guards the `$gte` clause with `int64 > 0`). -/
def LastID.Time : LastID → Nat
  | .operation oid => oid.time
  | .replication i _ => i.toNat

/-- Modelled from the spec: the wire rendering of a cursor id; a
replication id renders as the decimal millisecond timestamp.  (An
operation id renders as 24 hex characters; the claims never inspect that
rendering, the model renders the decimal of both components.) -/
def LastID.render : LastID → String
  | .operation oid => toString oid.time ++ "-" ++ toString oid.rest
  | .replication i _ => toString i

/-- Modelled from the spec: a state's event id is its `ts` as a
replication cursor (resume of a replication continues by timestamp). -/
def objectState.GetEventID (s : objectState) : LastID :=
  .replication s.Timestamp false

/-- struct Event (oplog.go lines 282-285, 450-453): a control event with
no data.  Data events are operations or states.  This sum is the
GenericEvent stream sent on the out channel. -/
inductive Ev where
  | ctrl (id : String) (event : String)
  | op (o : Operation)
  | state (s : objectState)
deriving DecidableEq, Repr

/-- Whether an emitted event is the reset control event. -/
def Ev.isReset : Ev → Bool
  | .ctrl _ e => e == "reset"
  | _ => false

/-- Whether an emitted event is the live control event. -/
def Ev.isLive : Ev → Bool
  | .ctrl _ e => e == "live"
  | _ => false

/-- Whether an emitted event is a state (replication) event. -/
def Ev.isState : Ev → Bool
  | .state _ => true
  | _ => false

/-- The Filter of oplog.go (named OpLogFilter in the earlier revision;
its compiled query shape is at lines 281-286 there: `data.t $in Types`,
`data.p $in Parents`; empty lists mean no restriction). -/
structure OpLogFilter where
  Types : List String
  Parents : List String
deriving DecidableEq, Repr

/-- The predicate the compiled filter query imposes on a document's
data: type among `Types` when nonempty, some parent among `Parents`
when nonempty. -/
def OpLogFilter.matches (f : OpLogFilter) (d : OperationData) : Bool :=
  (f.Types.isEmpty || f.Types.contains d.T) &&
  (f.Parents.isEmpty || d.P.any (fun p => f.Parents.contains p))

/-- The frozen store: the capped `oplog_ops` collection in insertion
order and the `oplog_states` collection. -/
structure Db where
  ops : List Operation
  states : List objectState
deriving DecidableEq, Repr

/-- LastID (oplog.go lines 247-259): the most recently inserted
operation id, or none when the op-log is empty or the last operation
has no id.  (Named flat because a dotted `OpLog.LastID` would shadow
the cursor type.) -/
def oplogLastID (db : Db) : Option LastID :=
  match db.ops.getLast? with
  | none => none
  | some operation =>
    match operation.ID with
    | some oid => some (.operation oid)
    | none => none

/-- HasID (oplog.go lines 234-244): an OperationLastID is looked up in
the capped collection by `_id`; every other cursor (replication ids,
nil) is reported present without touching the store.  The pair is the
Go (bool, error) with errors absent in the error-free store model. -/
def oplogHasID (db : Db) (id : Option LastID) : Bool × Option String :=
  match id with
  | some (.operation oid) =>
    ((db.ops.countP (fun op => op.ID == some oid)) != 0, none)
  | _ => (true, none)

/-- parseTimestampId (earlier revision, lines 54-64): a string of at
most 13 characters that strconv.ParseInt accepts in base 10 within
int64 range is a millisecond timestamp. -/
def digitVal (c : Char) : Option Nat :=
  if '0' ≤ c && c ≤ '9' then some (c.toNat - '0'.toNat) else none

/-- Accumulates base-10 digits; fails on a non-digit character. -/
def parseDigitsAux : List Char → Nat → Option Nat
  | [], acc => some acc
  | c :: cs, acc =>
    match digitVal c with
    | some d => parseDigitsAux cs (acc * 10 + d)
    | none => none

/-- strconv.ParseInt with base 10 and bit size 64: optional sign, a
nonempty run of digits, and the int64 range check. -/
def parseGoInt64 (s : String) : Option Int :=
  let signed : List Char → Option Int := fun cs =>
    match cs with
    | [] => none
    | '+' :: ds => if ds.isEmpty then none else (parseDigitsAux ds 0).map Int.ofNat
    | '-' :: ds => if ds.isEmpty then none else (parseDigitsAux ds 0).map (fun n => -(n : Int))
    | ds => (parseDigitsAux ds 0).map Int.ofNat
  match signed s.data with
  | none => none
  | some v => if -(2 ^ 63) ≤ v && v < 2 ^ 63 then some v else none

/-- parseTimestampId (earlier revision, lines 54-64). -/
def parseTimestampId (id : String) : Int × Bool :=
  if id.length ≤ 13 then
    match parseGoInt64 id with
    | some i => (i, true)
    | none => (-1, false)
  else (-1, false)

/-- Modelled from the spec: the parsing of a `Last-Event-ID` header into
a cursor, which lives outside this snapshot.  All-digits of length at
most 13 parse as `ReplicationID(n, fallback=false)` (this is exactly the
`parseTimestampId` dispatch the earlier revision performs); otherwise a
24-character hex object id parses as an `OperationID`; anything else is
rejected.  The hex branch is abstracted by a decode of the id's two
components, faithful to "parsing is deterministic by length and
charset". -/
def parseLastEventID (s : String) : Option LastID :=
  let r := parseTimestampId s
  if r.2 then
    some (.replication r.1 false)
  else if s.length == 24 && s.data.all (fun c => c.isDigit || ('a' ≤ c && c ≤ 'f')) then
    some (.operation ⟨(parseDigitsAux (s.data.take 8) 0).getD 0,
                      (parseDigitsAux (s.data.drop 8) 0).getD 0⟩)
  else
    none

/-- Whether a parsed cursor is an OperationID. -/
def isOperationCursor : Option LastID → Bool
  | some (.operation _) => true
  | _ => false

/-- Go maps from object id to OperationData, as association lists
(iteration order never matters in Diff: the only whole-map read is a
maximum). -/
abbrev OpDataMap := List (String × OperationData)

/-- Go `delete(m, k)`. -/
def mapDelete (m : OpDataMap) (k : String) : OpDataMap :=
  m.filter (fun p => p.1 ≠ k)

/-- Go `m[k] = v`. -/
def mapInsert (m : OpDataMap) (k : String) (v : OperationData) : OpDataMap :=
  (k, v) :: mapDelete m k

/-- Go `v, ok := m[k]`: the value at the first entry carrying the key. -/
def mapGet (m : OpDataMap) (k : String) : Option OperationData :=
  match m with
  | [] => none
  | p :: ps => if p.1 = k then some p.2 else mapGet ps k

/-- Diff, first step (oplog.go lines 186-192): the most recent source
timestamp over the dump, starting from time.Unix(0,0) and taking every
strictly later timestamp. -/
def dumpTimeOf (createMap : OpDataMap) : Nat :=
  createMap.foldl (fun dumpTime obd =>
    if dumpTime < obd.2.Timestamp then obd.2.Timestamp else dumpTime) 0

/-- The body of Diff's scan over the states collection (oplog.go lines
196-225), acting on the three maps.  Note the tombstone branch compares
the stored event against the literal "deleted" although append writes
"delete". -/
def diffStep (dumpTime : Nat) (maps : OpDataMap × OpDataMap × OpDataMap)
    (obs : objectState) : OpDataMap × OpDataMap × OpDataMap :=
  let (createMap, updateMap, deleteMap) := maps
  if obs.Event = "deleted" then
    match mapGet createMap obs.ID with
    | some obd =>
      if obd.Timestamp < obs.Data.Timestamp then
        (mapDelete createMap obs.ID, updateMap, deleteMap)
      else
        (createMap, updateMap, deleteMap)
    | none => (createMap, updateMap, deleteMap)
  else
    match mapGet createMap obs.ID with
    | some obd =>
      let createMap := mapDelete createMap obs.ID
      if obs.Data.Timestamp < obd.Timestamp then
        (createMap, mapInsert updateMap obs.ID obd, deleteMap)
      else
        (createMap, updateMap, deleteMap)
    | none =>
      if obs.Data.Timestamp < dumpTime then
        (mapDelete createMap obs.ID, updateMap,
         mapInsert deleteMap obs.ID obs.Data)
      else
        (createMap, updateMap, deleteMap)

/-- Diff (oplog.go lines 182-231) over the error-free frozen store:
compute the dump time, then fold the scan over the states collection in
collection order; the caller's three maps are returned in their final
state. -/
def oplogDiff (states : List objectState)
    (createMap updateMap deleteMap : OpDataMap) :
    OpDataMap × OpDataMap × OpDataMap :=
  states.foldl (diffStep (dumpTimeOf createMap))
    (createMap, updateMap, deleteMap)

/-- The state record append builds for an operation (oplog.go lines
147-159): the `update` event is stored as `insert`, `ts` is the append
wall-clock time, passed explicitly here. -/
def appendedState (op : Operation) (now : Nat) : objectState :=
  { ID := op.Data.GetID
  , Event := if op.Event = "update" then "insert" else op.Event
  , Timestamp := now
  , Data := op.Data }

/-- The `Upsert({_id: o.ID}, o)` of append on the states collection:
replace the record with that primary key, or insert the record. -/
def upsertState (states : List objectState) (o : objectState) :
    List objectState :=
  if states.any (fun s => s.ID == o.ID) then
    states.map (fun s => if s.ID == o.ID then o else s)
  else
    states ++ [o]

/-- The state collection after ingesting a sequence of operations, each
paired with its append wall-clock time (Ingest feeding append, oplog.go
lines 109-172; the op-log insert precedes each upsert and does not
affect the states collection). -/
def ingestStates (ops : List (Operation × Nat)) (states : List objectState) :
    List objectState :=
  ops.foldl (fun st p => upsertState st (appendedState p.1 p.2)) states

/-- Lookup of a state by primary key, as `FindId` on the states
collection. -/
def findState (states : List objectState) (k : String) : Option objectState :=
  states.find? (fun s => s.ID == k)

/-- The states query the replicate branch of Tail builds (oplog.go lines
381-398): the filter, an optional inclusive lower and upper bound on the
`ts` field, and whether the `event = "insert"` restriction is present. -/
structure StatesQuery where
  filter : OpLogFilter
  gte : Option Nat
  lte : Option Nat
  eventInsert : Bool
deriving DecidableEq, Repr

/-- The `$gte` part of the ts clause: absent means no restriction. -/
def tsGteOk (gte : Option Nat) (s : objectState) : Bool :=
  match gte with
  | none => true
  | some a => a ≤ s.Timestamp

/-- The `$lte` part of the ts clause: absent means no restriction. -/
def tsLteOk (lte : Option Nat) (s : objectState) : Bool :=
  match lte with
  | none => true
  | some b => s.Timestamp ≤ b

/-- Whether a stored state matches a states query. -/
def stateMatches (q : StatesQuery) (s : objectState) : Bool :=
  q.filter.matches s.Data && tsGteOk q.gte s && tsLteOk q.lte s &&
    (!q.eventInsert || s.Event == "insert")

/-- Query construction of the replicate branch (oplog.go lines 381-398):
`$gte` is set to the cursor's time only when its int64 is positive,
`$lte` to the replication fallback id's time when one exists, and the
`event = "insert"` restriction is present exactly when the cursor is not
in fallback mode. -/
def replicateQuery (filter : OpLogFilter) (int64 : Int)
    (fallbackMode : Bool) (replicationFallbackID : Option LastID) :
    StatesQuery :=
  { filter := filter
  , gte := if 0 < int64 then some (LastID.Time (.replication int64 fallbackMode)) else none
  , lte := replicationFallbackID.map LastID.Time
  , eventInsert := !fallbackMode }

/-- Insertion of a state into a list sorted by ascending `ts`. -/
def insertByTs (s : objectState) : List objectState → List objectState
  | [] => [s]
  | t :: ts => if s.Timestamp ≤ t.Timestamp then s :: t :: ts else t :: insertByTs s ts

/-- The `Sort("ts")` of a states query: ascending by the append
timestamp; ties are broken arbitrarily by the store, here by insertion
sort. -/
def sortByTs : List objectState → List objectState
  | [] => []
  | s :: ss => insertByTs s (sortByTs ss)

/-- One result page of the replicate branch (oplog.go line 403):
`Find(query).Sort("ts").Limit(pageSize)` over the states collection. -/
def statePage (db : Db) (q : StatesQuery) (pageSize : Nat) : List objectState :=
  (sortByTs (db.states.filter (fun s => stateMatches q s))).take pageSize

/-- One iteration of the replicate paging loop, recorded for the trace:
the query that was issued and the page it returned. -/
structure PageTrace where
  query : StatesQuery
  page : List objectState
deriving DecidableEq, Repr

/-- The paging loop of the replicate branch (oplog.go lines 400-438) in
the error-free run, as the trace of issued queries and returned pages.
After emitting a page the loop continues exactly when an event has been
emitted (`lastEv != nil`) and the page count equals the page size, and
it then re-issues the query with `$gte` set to the last emitted state's
ts; `fuel` bounds the number of iterations (the loop has no intrinsic
bound: a full page whose last ts keeps recurring re-issues forever). -/
def replicateTraceAux (db : Db) (pageSize : Nat) :
    Nat → StatesQuery → Option objectState → Option (List PageTrace)
  | 0, _, _ => none
  | fuel + 1, q, lastEv =>
    let page := statePage db q pageSize
    let lastEv' := match page.getLast? with
      | some le => some le
      | none => lastEv
    match lastEv', page.length == pageSize with
    | some le, true =>
      (replicateTraceAux db pageSize fuel
        { q with gte := some le.Timestamp } lastEv').map
        (fun tr => ⟨q, page⟩ :: tr)
    | _, _ => some [⟨q, page⟩]

/-- The full replicate phase of Tail for a `ReplicationLastID(int64,
fallbackMode)` cursor (oplog.go lines 370-458): capture the replication
fallback id, build the query, page through the states, then emit the
live control event (whose id is the last emitted state's event id, or
"" when nothing was emitted) and resume from the fallback id. -/
def replicatePhase (db : Db) (filter : OpLogFilter) (pageSize : Nat)
    (fuel : Nat) (int64 : Int) (fallbackMode : Bool) :
    Option (List Ev × Option LastID) :=
  let replicationFallbackID := oplogLastID db
  let q := replicateQuery filter int64 fallbackMode replicationFallbackID
  match replicateTraceAux db pageSize fuel q none with
  | none => none
  | some tr =>
    let emitted := (tr.map (fun t => t.page)).flatten
    let liveID := match emitted.getLast? with
      | some le => le.GetEventID.render
      | none => ""
    some (emitted.map Ev.state ++ [Ev.ctrl liveID "live"], replicationFallbackID)

/-- The states the replicate branch emits for a cursor, when its paging
loop terminates within `fuel` pages. -/
def replicatePages (db : Db) (filter : OpLogFilter) (pageSize : Nat)
    (fuel : Nat) (int64 : Int) (fallbackMode : Bool) :
    Option (List objectState) :=
  (replicateTraceAux db pageSize fuel
    (replicateQuery filter int64 fallbackMode (oplogLastID db)) none).map
    (fun tr => (tr.map (fun t => t.page)).flatten)

/-- The Go type assertion `i, ok := lastID.(*OperationLastID)` at
oplog.go line 322: when the dynamic type is not *OperationLastID the
assertion yields the nil pointer and false. -/
def opAssert : Option LastID → Option ObjectId × Bool
  | some (.operation oid) => (some oid, true)
  | _ => (none, false)

/-- The branch condition at oplog.go line 322, `ok || i == nil`: note
that a failed assertion leaves `i` nil, so the condition also holds for
a ReplicationLastID cursor and the live branch is taken for every
cursor. -/
def takesLiveBranch (lastID : Option LastID) : Bool :=
  (opAssert lastID).2 || (opAssert lastID).1 == none

/-- The operations the live branch emits (oplog.go lines 325-346): the
op-log filtered by the filter query and, when the asserted operation id
is non-nil, by `_id $gt` that id, in insertion order. -/
def liveOps (db : Db) (filter : OpLogFilter) (since : Option ObjectId) :
    List Operation :=
  db.ops.filter (fun op =>
    filter.matches op.Data &&
    (match since with
     | none => true
     | some oid =>
       match op.ID with
       | some x => ObjectId.lt oid x
       | none => false))

/-- Modelled from the spec: an operation's event id is its operation
id; the cursor advances to it after the operation is emitted.  The
prior cursor is kept for an id-less operation (the source would
dereference a nil pointer there; ids are always assigned by the
store). -/
def opCursor (lastID : Option LastID) (o : Operation) : Option LastID :=
  match o.ID with
  | some oid => some (.operation oid)
  | none => lastID

/-- The cursor update of the shared retry path (oplog.go lines 467-474):
when an event has been emitted since the last mode decision, the cursor
becomes that event's id, otherwise it is left unchanged.  For a state
event the id is its ts as a replication cursor. -/
def retryCursor (lastID : Option LastID) : Option objectState → Option LastID
  | none => lastID
  | some s => some s.GetEventID

/-- One iteration of Tail's main loop (oplog.go lines 319-475) over the
frozen error-free store: the dispatch of line 322 (live branch for an
OperationLastID, a nil cursor, and, because of the nil-valued failed
assertion, every other cursor as well), the unreachable replicate
branch of line 370, and the unreachable panic of line 464 (modelled as
none).  Returns the events emitted and the cursor for the next
iteration. -/
def tailIteration (db : Db) (filter : OpLogFilter) (pageSize : Nat)
    (fuel : Nat) (lastID : Option LastID) : Option (List Ev × Option LastID) :=
  let (i, _) := opAssert lastID
  if takesLiveBranch lastID then
    let ops := liveOps db filter i
    some (ops.map Ev.op,
      match ops.getLast? with
      | some o => opCursor lastID o
      | none => lastID)
  else
    match lastID with
    | some (.replication int64 fallbackMode) =>
      replicatePhase db filter pageSize fuel int64 fallbackMode
    | _ => none

/-- The reset emission at the top of Tail (oplog.go lines 276-287): a
control event with id "1" exactly when the cursor is a
ReplicationLastID with int64 zero, before the loop starts. -/
def resetEvents (lastID : Option LastID) : List Ev :=
  match lastID with
  | some (.replication int64 _) =>
    if int64 = 0 then [Ev.ctrl "1" "reset"] else []
  | _ => []

/-- The events Tail (oplog.go lines 273-486) emits through its first
pass over the frozen error-free store: the conditional reset, then the
first loop iteration.  On a frozen store later iterations emit nothing
new (the cursor has advanced past every stored operation), so this is
the whole emitted stream of such a run. -/
def tailEmitted (db : Db) (filter : OpLogFilter) (pageSize : Nat)
    (fuel : Nat) (lastID : Option LastID) : Option (List Ev) :=
  (tailIteration db filter pageSize fuel lastID).map
    (fun r => resetEvents lastID ++ r.1)

/-- A concrete payload for the worked examples. -/
def exData : OperationData := ⟨"x345", "video", ["user/u1"], 50⟩

/-- A concrete operation id for the worked examples. -/
def exOid : ObjectId := ⟨100, 1⟩

/-- A concrete insert operation. -/
def exOp : Operation := ⟨some exOid, "insert", exData⟩

/-- The stored state of the object of `exOp`. -/
def exState : objectState := ⟨"video/x345", "insert", 60, exData⟩

/-- A store holding one operation and one insert state. -/
def exDb : Db := ⟨[exOp], [exState]⟩

/-- The unrestricted filter. -/
def noFilter : OpLogFilter := ⟨[], []⟩

/-- A delete tombstone state for the fallback-mode example. -/
def exTomb : objectState := ⟨"video/y1", "delete", 70, ⟨"y1", "video", [], 55⟩⟩

/-- A store holding one operation, one insert state and one tombstone. -/
def exDbTomb : Db := ⟨[exOp], [exState, exTomb]⟩

/-- Three states with distinct append timestamps for the paging
example. -/
def exS10 : objectState := ⟨"video/a", "insert", 10, ⟨"a", "video", [], 10⟩⟩

/-- Second state of the paging example. -/
def exS20 : objectState := ⟨"video/b", "insert", 20, ⟨"b", "video", [], 20⟩⟩

/-- Third state of the paging example. -/
def exS30 : objectState := ⟨"video/c", "insert", 30, ⟨"c", "video", [], 30⟩⟩

/-- A store whose replicate run takes three pages at page size two. -/
def exDbPages : Db := ⟨[exOp], [exS30, exS10, exS20]⟩

theorem mem_of_getLast_some {α : Type} {l : List α} {a : α}
    (h : l.getLast? = some a) : a ∈ l := by
  induction l with
  | nil => simp at h
  | cons x xs ih =>
    cases xs with
    | nil => simp_all
    | cons y ys =>
      rw [List.getLast?_cons_cons] at h
      exact List.mem_cons_of_mem x (ih h)

theorem getLast_some_of_ne_nil {α : Type} {l : List α} (h : l ≠ []) :
    ∃ a, l.getLast? = some a := by
  induction l with
  | nil => exact absurd rfl h
  | cons x xs ih =>
    cases xs with
    | nil => exact ⟨x, rfl⟩
    | cons y ys =>
      obtain ⟨a, ha⟩ := ih (by simp)
      exact ⟨a, by rw [List.getLast?_cons_cons]; exact ha⟩

theorem mem_insertByTs {a s : objectState} {l : List objectState} :
    a ∈ insertByTs s l ↔ a = s ∨ a ∈ l := by
  induction l with
  | nil => simp [insertByTs]
  | cons t ts ih =>
    simp only [insertByTs]
    split
    · simp
    · simp [ih]
      tauto

theorem sorted_insertByTs {s : objectState} {l : List objectState}
    (h : l.Pairwise (fun x y => x.Timestamp ≤ y.Timestamp)) :
    (insertByTs s l).Pairwise (fun x y => x.Timestamp ≤ y.Timestamp) := by
  induction l with
  | nil => simp [insertByTs]
  | cons t ts ih =>
    rw [List.pairwise_cons] at h
    simp only [insertByTs]
    split
    · rename_i hle
      rw [List.pairwise_cons]
      refine ⟨?_, List.pairwise_cons.mpr h⟩
      intro y hy
      rcases List.mem_cons.mp hy with rfl | hy'
      · exact hle
      · exact le_trans hle (h.1 y hy')
    · rename_i hgt
      rw [List.pairwise_cons]
      refine ⟨?_, ih h.2⟩
      intro y hy
      rcases mem_insertByTs.mp hy with rfl | hy'
      · exact le_of_not_le hgt
      · exact h.1 y hy'

theorem mem_sortByTs {a : objectState} {l : List objectState} :
    a ∈ sortByTs l ↔ a ∈ l := by
  induction l with
  | nil => simp [sortByTs]
  | cons s ss ih => simp [sortByTs, mem_insertByTs, ih]

theorem sorted_sortByTs (l : List objectState) :
    (sortByTs l).Pairwise (fun x y => x.Timestamp ≤ y.Timestamp) := by
  induction l with
  | nil => simp [sortByTs]
  | cons s ss ih => exact sorted_insertByTs ih

theorem traceAux_head {db : Db} {n fuel : Nat} {q : StatesQuery}
    {le : Option objectState} {tr : List PageTrace}
    (h : replicateTraceAux db n fuel q le = some tr) :
    ∃ rest, tr = ⟨q, statePage db q n⟩ :: rest := by
  cases fuel with
  | zero => simp [replicateTraceAux] at h
  | succ f =>
    simp only [replicateTraceAux] at h
    split at h
    · rename_i le' heq
      rw [Option.map_eq_some'] at h
      obtain ⟨tr', _, rfl⟩ := h
      exact ⟨tr', rfl⟩
    · rename_i heq
      exact ⟨[], by injection h with h2; exact h2.symm⟩

theorem traceAux_ne_nil {db : Db} {n fuel : Nat} {q : StatesQuery}
    {le : Option objectState} {tr : List PageTrace}
    (h : replicateTraceAux db n fuel q le = some tr) : tr ≠ [] := by
  obtain ⟨rest, rfl⟩ := traceAux_head h
  simp

theorem traceAux_pages {db : Db} {n : Nat} : ∀ {fuel : Nat} {q : StatesQuery}
    {le : Option objectState} {tr : List PageTrace},
    replicateTraceAux db n fuel q le = some tr →
    ∀ t ∈ tr, t.query.eventInsert = q.eventInsert ∧ t.query.filter = q.filter ∧
      t.query.lte = q.lte ∧ ∀ s ∈ t.page, stateMatches t.query s = true := by
  intro fuel
  induction fuel with
  | zero => intro q le tr h; simp [replicateTraceAux] at h
  | succ f ih =>
    intro q le tr h t ht
    simp only [replicateTraceAux] at h
    have hpage : ∀ t2 : PageTrace, t2 = (⟨q, statePage db q n⟩ : PageTrace) →
        t2.query.eventInsert = q.eventInsert ∧ t2.query.filter = q.filter ∧
        t2.query.lte = q.lte ∧ ∀ s ∈ t2.page, stateMatches t2.query s = true := by
      rintro _ rfl
      refine ⟨rfl, rfl, rfl, ?_⟩
      intro s hs
      have hs2 : s ∈ sortByTs (db.states.filter (fun s => stateMatches q s)) :=
        List.mem_of_mem_take hs
      have := mem_sortByTs.mp hs2
      exact (List.mem_filter.mp this).2
    split at h
    · rename_i le' heq
      rw [Option.map_eq_some'] at h
      obtain ⟨tr', hrec, rfl⟩ := h
      rcases List.mem_cons.mp ht with rfl | ht'
      · exact hpage _ rfl
      · have := ih hrec t ht'
        simpa using this
    · rename_i heq
      injection h with h2
      subst h2
      rcases List.mem_cons.mp ht with rfl | ht'
      · exact hpage _ rfl
      · simp at ht'

theorem stateMatches_decomp {q : StatesQuery} {s : objectState}
    (h : stateMatches q s = true) :
    q.filter.matches s.Data = true ∧ tsGteOk q.gte s = true ∧
    tsLteOk q.lte s = true ∧ (!q.eventInsert || s.Event == "insert") = true := by
  simp only [stateMatches, Bool.and_eq_true] at h
  exact ⟨h.1.1.1, h.1.1.2, h.1.2, h.2⟩

theorem traceAux_coverage {db : Db} {n : Nat} (hn : 0 < n) :
    ∀ {fuel : Nat} {q : StatesQuery} {le : Option objectState} {tr : List PageTrace},
    replicateTraceAux db n fuel q le = some tr →
    ∀ s ∈ db.states, stateMatches q s = true →
    s ∈ (tr.map (fun t => t.page)).flatten := by
  intro fuel
  induction fuel with
  | zero => intro q le tr h; simp [replicateTraceAux] at h
  | succ f ih =>
    intro q le tr h s hsdb hsm
    have hsL : s ∈ sortByTs (db.states.filter (fun x => stateMatches q x)) :=
      mem_sortByTs.mpr (List.mem_filter.mpr ⟨hsdb, hsm⟩)
    set L := sortByTs (db.states.filter (fun x => stateMatches q x)) with hL
    simp only [replicateTraceAux] at h
    by_cases hsp : s ∈ statePage db q n
    · -- the state is on the first page, which heads the trace in both branches
      split at h
      · rw [Option.map_eq_some'] at h
        obtain ⟨tr', _, rfl⟩ := h
        simp only [List.map_cons, List.flatten_cons]
        exact List.mem_append_left _ hsp
      · injection h with h2
        subst h2
        simpa using hsp
    · -- the state is beyond the first page: the page is full and the loop continues
      have htake : statePage db q n = L.take n := by rw [hL, statePage]
      have hlt : n < L.length := by
        by_contra hle
        push_neg at hle
        rw [htake, List.take_of_length_le hle] at hsp
        exact hsp hsL
      have hlen : (statePage db q n).length = n := by
        rw [htake, List.length_take]
        omega
      have hne : statePage db q n ≠ [] := by
        intro hcon
        rw [hcon] at hlen
        simp at hlen
        omega
      obtain ⟨lep, hlep⟩ := getLast_some_of_ne_nil hne
      have hsdrop : s ∈ L.drop n := by
        have := (List.take_append_drop n L) ▸ hsL
        rcases List.mem_append.mp this with h1 | h2
        · exact absurd (htake ▸ h1) hsp
        · exact h2
      have hlepts : lep.Timestamp ≤ s.Timestamp := by
        have hsort := sorted_sortByTs (db.states.filter (fun x => stateMatches q x))
        rw [← hL, ← List.take_append_drop n L, List.pairwise_append] at hsort
        exact hsort.2.2 lep (htake ▸ mem_of_getLast_some hlep) s hsdrop
      split at h
      · rename_i le' hmatch hbeq
        rw [hlep] at hmatch
        injection hmatch with hmatch
        subst hmatch
        rw [Option.map_eq_some'] at h
        obtain ⟨tr', hrec, rfl⟩ := h
        have hsm' : stateMatches { q with gte := some lep.Timestamp } s = true := by
          obtain ⟨h1, h2, h3, h4⟩ := stateMatches_decomp hsm
          simp only [stateMatches, Bool.and_eq_true]
          refine ⟨⟨⟨h1, ?_⟩, h3⟩, h4⟩
          simp [tsGteOk, hlepts]
        have := ih hrec s hsdb hsm'
        simp only [List.map_cons, List.flatten_cons]
        exact List.mem_append_right _ this
      · rename_i heq
        exact (heq lep (by rw [hlep]) (by rw [hlen]; exact beq_self_eq_true n)).elim

theorem traceAux_chain {db : Db} {n : Nat} (hn : 0 < n) :
    ∀ {fuel : Nat} {q : StatesQuery} {le : Option objectState} {tr : List PageTrace},
    replicateTraceAux db n fuel q le = some tr →
    ∀ (k : Nat) (a b : PageTrace), tr[k]? = some a → tr[k+1]? = some b →
      a.page.length = n ∧ ∃ lep, a.page.getLast? = some lep ∧
        b.query.gte = some lep.Timestamp ∧ tsGteOk b.query.gte lep = true := by
  intro fuel
  induction fuel with
  | zero => intro q le tr h; simp [replicateTraceAux] at h
  | succ f ih =>
    intro q le tr h k a b hka hkb
    simp only [replicateTraceAux] at h
    split at h
    · rename_i le' hmatch hbeq
      rw [Option.map_eq_some'] at h
      obtain ⟨tr', hrec, rfl⟩ := h
      cases k with
      | zero =>
        rw [List.getElem?_cons_zero] at hka
        injection hka with hka
        subst hka
        rw [List.getElem?_cons_succ] at hkb
        have hlen : (statePage db q n).length = n := eq_of_beq hbeq
        have hne : statePage db q n ≠ [] := by
          intro hcon
          rw [hcon] at hlen
          simp at hlen
          omega
        obtain ⟨lep, hlep⟩ := getLast_some_of_ne_nil hne
        rw [hlep] at hmatch
        injection hmatch with hmatch
        subst hmatch
        obtain ⟨rest, rfl⟩ := traceAux_head hrec
        rw [List.getElem?_cons_zero] at hkb
        injection hkb with hkb
        subst hkb
        exact ⟨hlen, lep, hlep, rfl, by simp [tsGteOk]⟩
      | succ k' =>
        rw [List.getElem?_cons_succ] at hka
        rw [List.getElem?_cons_succ] at hkb
        exact ih hrec k' a b hka hkb
    · rename_i heq
      injection h with h2
      subst h2
      rw [List.getElem?_cons_succ] at hkb
      simp at hkb

theorem traceAux_last {db : Db} {n : Nat} (hn : 0 < n) :
    ∀ {fuel : Nat} {q : StatesQuery} {le : Option objectState} {tr : List PageTrace},
    replicateTraceAux db n fuel q le = some tr →
    ∀ a, tr.getLast? = some a → a.page.length < n := by
  intro fuel
  induction fuel with
  | zero => intro q le tr h; simp [replicateTraceAux] at h
  | succ f ih =>
    intro q le tr h a ha
    simp only [replicateTraceAux] at h
    split at h
    · rename_i le' hmatch hbeq
      rw [Option.map_eq_some'] at h
      obtain ⟨tr', hrec, rfl⟩ := h
      obtain ⟨x, xs, rfl⟩ : ∃ x xs, tr' = x :: xs := by
        cases htr' : tr' with
        | nil => exact absurd htr' (traceAux_ne_nil hrec)
        | cons x xs => exact ⟨x, xs, rfl⟩
      rw [List.getLast?_cons_cons] at ha
      exact ih hrec a ha
    · rename_i heq
      injection h with h2
      subst h2
      simp only [List.getLast?_singleton] at ha
      injection ha with ha
      subst ha
      simp only []
      have hle : (statePage db q n).length ≤ n := by
        rw [statePage]
        exact le_trans (List.length_take_le n _) (le_refl n)
      rcases Nat.lt_or_ge (statePage db q n).length n with hlt | hge
      · exact hlt
      · have hlen : (statePage db q n).length = n := le_antisymm hle hge
        have hne : statePage db q n ≠ [] := by
          intro hcon
          rw [hcon] at hlen
          simp at hlen
          omega
        obtain ⟨lep, hlep⟩ := getLast_some_of_ne_nil hne
        exact (heq lep (by rw [hlep]) (by rw [hlen]; exact beq_self_eq_true n)).elim

theorem mapGet_mapDelete (m : OpDataMap) (k j : String) :
    mapGet (mapDelete m j) k = if k = j then none else mapGet m k := by
  induction m with
  | nil => simp [mapGet, mapDelete]
  | cons p ps ih =>
    by_cases hpj : p.1 = j
    · have : mapDelete (p :: ps) j = mapDelete ps j := by
        simp [mapDelete, List.filter, hpj]
      rw [this, ih]
      by_cases hkj : k = j
      · simp [hkj]
      · have hpk : ¬ p.1 = k := by rw [hpj]; exact fun hc => hkj hc.symm
        simp [hkj, mapGet, hpk]
    · have : mapDelete (p :: ps) j = p :: mapDelete ps j := by
        simp [mapDelete, List.filter, hpj]
      rw [this]
      by_cases hpk : p.1 = k
      · have hkj : ¬ k = j := fun hc => hpj (hpk.trans hc)
        simp [mapGet, hpk, hkj]
      · simp only [mapGet, if_neg hpk]
        exact ih

theorem mapGet_mapInsert (m : OpDataMap) (k j : String) (v : OperationData) :
    mapGet (mapInsert m j v) k = if k = j then some v else mapGet m k := by
  by_cases hkj : k = j
  · subst hkj
    simp [mapGet, mapInsert]
  · have hjk : ¬ j = k := fun hc => hkj hc.symm
    simp only [mapInsert, mapGet, if_neg hjk, if_neg hkj]
    have := mapGet_mapDelete m k j
    rw [if_neg hkj] at this
    exact this

theorem diffStep_cm_none {dt : Nat} {cm um dm : OpDataMap} {x : objectState}
    {k : String} (h : mapGet cm k = none) :
    mapGet (diffStep dt (cm, um, dm) x).1 k = none := by
  have hdel : ∀ j, mapGet (mapDelete cm j) k = none := by
    intro j
    rw [mapGet_mapDelete]
    split <;> simp [h]
  simp only [diffStep]
  split
  · split
    · split
      · exact hdel _
      · exact h
    · exact h
  · split
    · split
      · exact hdel _
      · exact hdel _
    · split
      · exact hdel _
      · exact h

theorem diffStep_um_other {dt : Nat} {cm um dm : OpDataMap} {x : objectState}
    {k : String} (hne : ¬ x.ID = k) :
    mapGet (diffStep dt (cm, um, dm) x).2.1 k = mapGet um k := by
  have hins : ∀ v, mapGet (mapInsert um x.ID v) k = mapGet um k := by
    intro v
    rw [mapGet_mapInsert]
    split
    · rename_i hc; exact absurd hc.symm hne
    · rfl
  simp only [diffStep]
  split
  · split
    · split <;> rfl
    · rfl
  · split
    · split
      · exact hins _
      · rfl
    · split <;> rfl

theorem diffStep_dm_other {dt : Nat} {cm um dm : OpDataMap} {x : objectState}
    {k : String} (hne : ¬ x.ID = k) :
    mapGet (diffStep dt (cm, um, dm) x).2.2 k = mapGet dm k := by
  have hins : mapGet (mapInsert dm x.ID x.Data) k = mapGet dm k := by
    rw [mapGet_mapInsert]
    split
    · rename_i hc; exact absurd hc.symm hne
    · rfl
  simp only [diffStep]
  split
  · split
    · split <;> rfl
    · rfl
  · split
    · split <;> rfl
    · split
      · exact hins
      · rfl

theorem diffStep_at_self {dt : Nat} {cm um dm : OpDataMap} {x : objectState}
    (hev : ¬ x.Event = "deleted") (hcm : mapGet cm x.ID = none) :
    diffStep dt (cm, um, dm) x =
      if x.Data.Timestamp < dt then
        (mapDelete cm x.ID, um, mapInsert dm x.ID x.Data)
      else (cm, um, dm) := by
  simp only [diffStep, if_neg hev, hcm]

theorem diffScan_untouched {dt : Nat} {k : String} :
    ∀ (S : List objectState) (cm um dm : OpDataMap), (∀ x ∈ S, ¬ x.ID = k) →
    mapGet ((S.foldl (diffStep dt) (cm, um, dm)).2.1) k = mapGet um k ∧
    mapGet ((S.foldl (diffStep dt) (cm, um, dm)).2.2) k = mapGet dm k := by
  intro S
  induction S with
  | nil => intro cm um dm _; exact ⟨rfl, rfl⟩
  | cons x S' ih =>
    intro cm um dm hids
    have hx : ¬ x.ID = k := hids x (List.mem_cons_self x S')
    have hS' : ∀ y ∈ S', ¬ y.ID = k := fun y hy => hids y (List.mem_cons_of_mem x hy)
    rw [List.foldl_cons]
    rcases hstep : diffStep dt (cm, um, dm) x with ⟨cm1, um1, dm1⟩
    have h1 := ih cm1 um1 dm1 hS'
    refine ⟨h1.1.trans ?_, h1.2.trans ?_⟩
    · have := @diffStep_um_other dt cm um dm x k hx
      rw [hstep] at this
      exact this
    · have := @diffStep_dm_other dt cm um dm x k hx
      rw [hstep] at this
      exact this

theorem diffScan_cm_none {dt : Nat} {k : String} :
    ∀ (S : List objectState) (cm um dm : OpDataMap), mapGet cm k = none →
    mapGet ((S.foldl (diffStep dt) (cm, um, dm)).1) k = none := by
  intro S
  induction S with
  | nil => intro cm um dm h; exact h
  | cons x S' ih =>
    intro cm um dm h
    rw [List.foldl_cons]
    rcases hstep : diffStep dt (cm, um, dm) x with ⟨cm1, um1, dm1⟩
    apply ih
    have := @diffStep_cm_none dt cm um dm x k h
    rw [hstep] at this
    exact this

theorem dumpTime_fold_ge :
    ∀ (l : OpDataMap) (a : Nat), a ≤ l.foldl
      (fun dumpTime obd => if dumpTime < obd.2.Timestamp then obd.2.Timestamp else dumpTime) a := by
  intro l
  induction l with
  | nil => intro a; exact le_refl a
  | cons p ps ih =>
    intro a
    rw [List.foldl_cons]
    refine le_trans ?_ (ih _)
    split <;> omega

theorem dumpTimeOf_ub : ∀ (cm : OpDataMap) (p : String × OperationData), p ∈ cm →
    p.2.Timestamp ≤ dumpTimeOf cm := by
  have gen : ∀ (l : OpDataMap) (a : Nat) (p : String × OperationData), p ∈ l →
      p.2.Timestamp ≤ l.foldl
        (fun dumpTime obd => if dumpTime < obd.2.Timestamp then obd.2.Timestamp else dumpTime) a := by
    intro l
    induction l with
    | nil => intro a p hp; simp at hp
    | cons q qs ih =>
      intro a p hp
      rw [List.foldl_cons]
      rcases List.mem_cons.mp hp with rfl | hp'
      · refine le_trans ?_ (dumpTime_fold_ge qs _)
        split <;> omega
      · exact ih _ p hp'
  intro cm p hp
  exact gen cm 0 p hp

theorem dumpTimeOf_attained : ∀ (cm : OpDataMap),
    dumpTimeOf cm = 0 ∨ ∃ p ∈ cm, p.2.Timestamp = dumpTimeOf cm := by
  have gen : ∀ (l : OpDataMap) (a : Nat),
      l.foldl (fun dumpTime obd => if dumpTime < obd.2.Timestamp then obd.2.Timestamp else dumpTime) a = a ∨
      ∃ p ∈ l, p.2.Timestamp = l.foldl
        (fun dumpTime obd => if dumpTime < obd.2.Timestamp then obd.2.Timestamp else dumpTime) a := by
    intro l
    induction l with
    | nil => intro a; exact Or.inl rfl
    | cons q qs ih =>
      intro a
      rw [List.foldl_cons]
      split
      · rcases ih q.2.Timestamp with h | ⟨p, hp, hpe⟩
        · exact Or.inr ⟨q, List.mem_cons_self q qs, h.symm ▸ h⟩
        · exact Or.inr ⟨p, List.mem_cons_of_mem q hp, hpe⟩
      · rcases ih a with h | ⟨p, hp, hpe⟩
        · exact Or.inl h
        · exact Or.inr ⟨p, List.mem_cons_of_mem q hp, hpe⟩
  intro cm
  rcases gen cm 0 with h | h
  · exact Or.inl h
  · exact Or.inr h

theorem findState_upsert_self (st : List objectState) (o : objectState) :
    findState (upsertState st o) o.ID = some o := by
  simp only [upsertState]
  split
  · rename_i hany
    induction st with
    | nil => simp at hany
    | cons s ss ih =>
      rw [List.any_cons] at hany
      by_cases hs : s.ID == o.ID
      · simp only [List.map_cons, if_pos hs, findState, List.find?]
        rw [show (o.ID == o.ID) = true from beq_self_eq_true o.ID]
      · simp only [List.map_cons, if_neg hs, findState, List.find?]
        have hs2 : (s.ID == o.ID) = false := by
          cases hb : (s.ID == o.ID) with
          | true => exact absurd hb hs
          | false => rfl
        rw [hs2]
        have hany' : ss.any (fun s => s.ID == o.ID) = true := by
          rcases Bool.or_eq_true_iff.mp hany with h | h
          · exact absurd h hs
          · exact h
        exact ih hany'
  · rename_i hnone
    induction st with
    | nil =>
      simp only [List.nil_append, findState, List.find?]
      rw [show (o.ID == o.ID) = true from beq_self_eq_true o.ID]
    | cons s ss ih =>
      rw [List.any_cons] at hnone
      have hs : (s.ID == o.ID) = false := by
        cases hb : (s.ID == o.ID) with
        | true => exact absurd (Bool.or_eq_true_iff.mpr (Or.inl hb)) hnone
        | false => rfl
      simp only [List.cons_append, findState, List.find?, hs]
      apply ih
      intro hc
      exact hnone (Bool.or_eq_true_iff.mpr (Or.inr hc))

theorem ingestStates_last :
    ∀ (ops : List (Operation × Nat)) (st : List objectState) (lop : Operation × Nat),
    ops.getLast? = some lop →
    findState (ingestStates ops st) lop.1.Data.GetID =
      some (appendedState lop.1 lop.2) := by
  intro ops
  induction ops with
  | nil => intro st lop h; simp at h
  | cons a rest ih =>
    intro st lop h
    cases rest with
    | nil =>
      simp only [List.getLast?_singleton] at h
      have ha : a = lop := by injection h
      rw [← ha]
      simp only [ingestStates, List.foldl_cons, List.foldl_nil]
      have h2 : (appendedState a.1 a.2).ID = a.1.Data.GetID := rfl
      rw [← h2]
      exact findState_upsert_self st _
    | cons b rest' =>
      rw [List.getLast?_cons_cons] at h
      simp only [ingestStates, List.foldl_cons]
      exact ih _ lop h

theorem diffStep_found_eq {dt : Nat} {cm um dm : OpDataMap} {x : objectState}
    {obd : OperationData} (hev : ¬ x.Event = "deleted")
    (hcm : mapGet cm x.ID = some obd) (hts : ¬ x.Data.Timestamp < obd.Timestamp) :
    diffStep dt (cm, um, dm) x = (mapDelete cm x.ID, um, dm) := by
  simp only [diffStep, if_neg hev, hcm, if_neg hts]

theorem diffScan_roundtrip {dt : Nat} :
    ∀ (S : List objectState) (cm um dm : OpDataMap),
    (S.map (fun x => x.ID)).Nodup →
    (∀ x ∈ S, x.Event = "insert") →
    (∀ x ∈ S, mapGet cm x.ID = some x.Data) →
    (∀ p ∈ cm, ∃ x ∈ S, p.1 = x.ID) →
    S.foldl (diffStep dt) (cm, um, dm) = ([], um, dm) := by
  intro S
  induction S with
  | nil =>
    intro cm um dm _ _ _ hkeys
    have : cm = [] := by
      rcases cm with _ | ⟨p, ps⟩
      · rfl
      · obtain ⟨x, hx, _⟩ := hkeys p (List.mem_cons_self p ps)
        simp at hx
    rw [this]
    rfl
  | cons x S' ih =>
    intro cm um dm hnd hev hget hkeys
    rw [List.map_cons, List.nodup_cons] at hnd
    have hxev : ¬ x.Event = "deleted" := by
      rw [hev x (List.mem_cons_self x S')]
      intro hc
      exact absurd hc (by decide)
    have hxcm : mapGet cm x.ID = some x.Data := hget x (List.mem_cons_self x S')
    rw [List.foldl_cons,
      diffStep_found_eq hxev hxcm (lt_irrefl x.Data.Timestamp)]
    apply ih
    · exact hnd.2
    · intro y hy; exact hev y (List.mem_cons_of_mem x hy)
    · intro y hy
      rw [mapGet_mapDelete]
      have hyx : ¬ y.ID = x.ID := by
        intro hc
        exact hnd.1 (hc ▸ List.mem_map_of_mem (fun z => z.ID) hy)
      rw [if_neg hyx]
      exact hget y (List.mem_cons_of_mem x hy)
    · intro p hp
      have hp2 : p ∈ cm ∧ ¬ p.1 = x.ID := by
        have := List.mem_filter.mp hp
        refine ⟨this.1, ?_⟩
        have := this.2
        simpa using this
      obtain ⟨z, hz, hpz⟩ := hkeys p hp2.1
      rcases List.mem_cons.mp hz with rfl | hz'
      · exact absurd hpz hp2.2
      · exact ⟨z, hz', hpz⟩

theorem tailEmitted_replication {db : Db} {f : OpLogFilter} {n fuel : Nat}
    {i : Int} {fb : Bool} {evs : List Ev}
    (h : tailEmitted db f n fuel (some (.replication i fb)) = some evs) :
    evs = (if i = 0 then [Ev.ctrl "1" "reset"] else []) ++
      (liveOps db f none).map Ev.op := by
  simp only [tailEmitted, tailIteration, opAssert, takesLiveBranch,
    resetEvents, Option.map_eq_some'] at h
  obtain ⟨r, hr, hevs⟩ := h
  simp only [Bool.or_eq_true] at hr
  have hcond : false = true ∨ ((none : Option ObjectId) == none) = true :=
    Or.inr rfl
  rw [if_pos hcond] at hr
  injection hr with hr
  rw [← hevs, ← hr]

/-- C1: with cursor `ReplicationID(0, false)` the Tailer emits the reset
event with id "1" and then, because the dispatch at oplog.go line 322
tests the nil-valued failed type assertion (`i == nil`) instead of
`lastID == nil` and therefore sends every cursor to the live branch,
it live-tails the whole op-log: the second event is the stored
operation itself, whose id equals the pre-replication LastID and is not
greater than it; no insert state event and no live control event is
emitted, contradicting the claimed replicate-then-live sequence. -/
theorem C1_replication_cursor_is_live_tailed :
    tailEmitted exDb noFilter 1000 8 (some (.replication 0 false)) =
      some [Ev.ctrl "1" "reset", Ev.op exOp] ∧
    oplogLastID exDb = some (.operation exOid) ∧
    exOp.ID = some exOid ∧
    ObjectId.lt exOid exOid = false ∧
    exState ∈ exDb.states ∧
    exState.Event = "insert" ∧
    ([Ev.ctrl "1" "reset", Ev.op exOp].all
      (fun e => !e.isLive && !e.isState)) = true := by
  refine ⟨rfl, rfl, rfl, rfl, ?_, rfl, rfl⟩
  simp [exDb]

/-- C7: the retry path of Tail (oplog.go lines 467-474) does move the
cursor to the last emitted state's ts (as a replication id) and keeps
it unchanged when nothing was emitted, as the claim says; but the next
loop iteration dispatches every cursor — replication ids included — to
the live branch (line 322 tests the nil-valued failed assertion
`i == nil`), so after an error in the replicate branch the code would
retry LIVE-TAIL, not REPLICATE; the final conjunct evaluates one such
retried iteration, which emits operations, not states. -/
theorem C7_retry_redispatches_to_live :
    (∀ lastID : Option LastID, retryCursor lastID none = lastID) ∧
    (∀ (lastID : Option LastID) (s : objectState),
      retryCursor lastID (some s) = some (.replication s.Timestamp false)) ∧
    (∀ lastID : Option LastID, takesLiveBranch lastID = true) ∧
    retryCursor (some (.replication 0 true)) (some exState) =
      some (.replication 60 false) ∧
    tailIteration exDb noFilter 1000 8
      (retryCursor (some (.replication 0 true)) (some exState)) =
      some ([Ev.op exOp], some (.operation exOid)) := by
  refine ⟨fun lastID => rfl, fun lastID s => rfl, ?_, rfl, rfl⟩
  intro lastID
  rcases lastID with _ | l
  · rfl
  · rcases l with oid | ⟨i, fb⟩ <;> rfl

/-- C3: Diff's tombstone branch (oplog.go line 197) compares the stored
event against "deleted", but append (lines 148-159, second conjunct
here) writes "delete".  A stored delete tombstone whose create entry is
newer therefore falls into the live-object branch: its id is removed
from the create map and an update entry is written, where the claim
says the create entry is left in place and nothing is added to the
update map. -/
theorem C3_delete_tombstone_takes_live_branch :
    oplogDiff [⟨"video/A", "delete", 60, ⟨"A", "video", [], 200⟩⟩]
        [("video/A", ⟨"A", "video", [], 300⟩)] [] [] =
      ([], [("video/A", ⟨"A", "video", [], 300⟩)], []) ∧
    (appendedState ⟨none, "delete", ⟨"A", "video", [], 200⟩⟩ 60).Event =
      "delete" := by
  exact ⟨rfl, rfl⟩

/-- C10: HasID answers a ReplicationLastID cursor — any timestamp,
either fallback flag — with (true, nil) independently of the store
(oplog.go line 243), and consults the capped op-log only for an
OperationLastID, for which the answer is membership of the id. -/
theorem C10_hasid_dispatch :
    (∀ (db : Db) (ts : Int) (fb : Bool),
      oplogHasID db (some (.replication ts fb)) = (true, none)) ∧
    (∀ (db db2 : Db) (ts : Int) (fb : Bool),
      oplogHasID db (some (.replication ts fb)) =
        oplogHasID db2 (some (.replication ts fb))) ∧
    (∀ (db : Db) (oid : ObjectId),
      (oplogHasID db (some (.operation oid))).1 = true ↔
        ∃ op ∈ db.ops, op.ID = some oid) := by
  refine ⟨fun db ts fb => rfl, fun db db2 ts fb => rfl, ?_⟩
  intro db oid
  have h1 : (oplogHasID db (some (.operation oid))).1 =
      (db.ops.countP (fun op => op.ID == some oid) != 0) := rfl
  rw [h1]
  constructor
  · intro h
    have hne := bne_iff_ne.mp h
    have hpos : 0 < db.ops.countP (fun op => op.ID == some oid) :=
      Nat.pos_of_ne_zero hne
    obtain ⟨op, hop, hpo⟩ := List.countP_pos_iff.mp hpos
    exact ⟨op, hop, by simpa using hpo⟩
  · rintro ⟨op, hop, hpo⟩
    have hpos : 0 < db.ops.countP (fun op => op.ID == some oid) :=
      List.countP_pos_iff.mpr ⟨op, hop, by simpa using hpo⟩
    exact bne_iff_ne.mpr (Nat.pos_iff_ne_zero.mp hpos)

/-- C2 counterexample: the cursor string "1" — one digit, length at most
13 — parses as a replication id `ReplicationID(1, false)`, not as an
OperationID, refuting the claim's first conjunct at the concrete input
"1". -/
theorem C2_counterexample_one_parses_as_replication :
    isOperationCursor (parseLastEventID "1") = false ∧
    parseLastEventID "1" = some (.replication 1 false) ∧
    parseTimestampId "1" = (1, true) := by
  refine ⟨?_, ?_, ?_⟩ <;> rfl

/-- C2 amended: the cursor string "1" parses as the replication id
`ReplicationID(1, false)` (all digits of length at most 13), and a
Tailer started with that parsed cursor emits no reset event at all,
because the reset is emitted only when the replication timestamp is
exactly zero (oplog.go line 277). -/
theorem C2_cursor_one_no_reset :
    parseLastEventID "1" = some (.replication 1 false) ∧
    ∀ (db : Db) (f : OpLogFilter) (n fuel : Nat) (evs : List Ev),
      tailEmitted db f n fuel (parseLastEventID "1") = some evs →
      evs.all (fun e => !e.isReset) = true := by
  refine ⟨rfl, ?_⟩
  intro db f n fuel evs h
  rw [show parseLastEventID "1" = some (.replication 1 false) from rfl] at h
  have := tailEmitted_replication h
  rw [if_neg (by omega : ¬ (1 : Int) = 0)] at this
  subst this
  simp only [List.nil_append, List.all_eq_true]
  intro e he
  obtain ⟨o, _, rfl⟩ := List.mem_map.mp he
  rfl

/-- C2 witness: the amended theorem applied to the one-operation store,
where the Tailer with cursor "1" emits exactly the one operation and no
reset. -/
theorem C2_witness :
    ([Ev.op exOp] : List Ev).all (fun e => !e.isReset) = true :=
  C2_cursor_one_no_reset.2 exDb noFilter 1000 8 [Ev.op exOp] rfl

/-- C5: the state record append upserts carries event "insert" exactly
when the operation's event is "insert" or "update" and "delete" exactly
when it is "delete" (normalization at oplog.go lines 148-153), and
after any sequence of operations on one object the stored state is the
appended record of the last operation, so its event satisfies the same
characterization with respect to the last operation. -/
theorem C5_event_normalization :
    (∀ (op : Operation) (now : Nat),
      ((appendedState op now).Event = "insert" ↔
        (op.Event = "insert" ∨ op.Event = "update")) ∧
      ((appendedState op now).Event = "delete" ↔ op.Event = "delete")) ∧
    (∀ (ops : List (Operation × Nat)) (st : List objectState) (k : String)
      (lop : Operation × Nat),
      ops.getLast? = some lop →
      (∀ p ∈ ops, p.1.Data.GetID = k) →
      findState (ingestStates ops st) k = some (appendedState lop.1 lop.2) ∧
      ((appendedState lop.1 lop.2).Event = "insert" ↔
        (lop.1.Event = "insert" ∨ lop.1.Event = "update")) ∧
      ((appendedState lop.1 lop.2).Event = "delete" ↔
        lop.1.Event = "delete")) := by
  have hchar : ∀ (op : Operation) (now : Nat),
      ((appendedState op now).Event = "insert" ↔
        (op.Event = "insert" ∨ op.Event = "update")) ∧
      ((appendedState op now).Event = "delete" ↔ op.Event = "delete") := by
    intro op now
    have hev : (appendedState op now).Event =
        if op.Event = "update" then "insert" else op.Event := rfl
    rw [hev]
    by_cases hu : op.Event = "update"
    · rw [if_pos hu]
      constructor
      · exact ⟨fun _ => Or.inr hu, fun _ => rfl⟩
      · constructor
        · intro hc; exact absurd hc (by decide)
        · intro hc; rw [hu] at hc; exact absurd hc (by decide)
    · rw [if_neg hu]
      constructor
      · constructor
        · intro hc; exact Or.inl hc
        · rintro (hc | hc)
          · exact hc
          · exact absurd hc hu
      · exact Iff.rfl
  refine ⟨hchar, ?_⟩
  intro ops st k lop hlast hall
  have hmem : lop ∈ ops := mem_of_getLast_some hlast
  have hk : lop.1.Data.GetID = k := hall lop hmem
  refine ⟨?_, (hchar lop.1 lop.2).1, (hchar lop.1 lop.2).2⟩
  rw [← hk]
  exact ingestStates_last ops st lop hlast

/-- C5 witness: ingesting insert then update on one object leaves a
state with event "insert", the appended record of the final update. -/
theorem C5_witness :
    findState (ingestStates
      [(⟨none, "insert", exData⟩, 1), (⟨none, "update", exData⟩, 2)] [])
      "video/x345" = some (appendedState ⟨none, "update", exData⟩ 2) :=
  (C5_event_normalization.2
    [(⟨none, "insert", exData⟩, 1), (⟨none, "update", exData⟩, 2)] []
    "video/x345" (⟨none, "update", exData⟩, 2) rfl (by decide)).1

/-- C9: when Diff is called with empty update and delete maps and a
create map holding exactly the data payloads of every stored state
(same timestamps, no tombstones — every stored event is "insert", which
is what append writes for live objects), all three maps come back
empty. -/
theorem C9_diff_roundtrip :
    ∀ (S : List objectState) (cm : OpDataMap),
    (S.map (fun x => x.ID)).Nodup →
    (∀ x ∈ S, x.Event = "insert") →
    (∀ x ∈ S, mapGet cm x.ID = some x.Data) →
    (∀ p ∈ cm, ∃ x ∈ S, p.1 = x.ID) →
    oplogDiff S cm [] [] = ([], [], []) := by
  intro S cm h1 h2 h3 h4
  exact diffScan_roundtrip S cm [] [] h1 h2 h3 h4

/-- C9 witness: the round trip on a one-state store and its exact
snapshot. -/
theorem C9_witness :
    oplogDiff [exState] [("video/x345", exData)] [] [] = ([], [], []) :=
  C9_diff_roundtrip [exState] [("video/x345", exData)]
    (by decide) (by decide) (by decide) (by decide)

/-- C8: a stored state whose id is absent from the create map (here:
absent from it initially, with no other scanned state sharing its id,
which is the states collection's primary-key uniqueness) is added to
the delete map — and its id stays out of the create map — exactly when
its data timestamp is strictly before dumpTime; otherwise neither the
delete, update nor create map is changed at its id.  dumpTime is the
maximum data timestamp over the create map (last two conjuncts), as
computed at oplog.go lines 186-192.  The hypothesis that the state's
event is not the literal "deleted" reflects what append writes
("insert"/"delete", never "deleted"). -/
theorem C8_diff_delete_map :
    ∀ (S1 S2 : List objectState) (s : objectState) (cm : OpDataMap),
    (∀ x ∈ S1, ¬ x.ID = s.ID) →
    (∀ x ∈ S2, ¬ x.ID = s.ID) →
    mapGet cm s.ID = none →
    ¬ s.Event = "deleted" →
    (mapGet (oplogDiff (S1 ++ s :: S2) cm [] []).2.2 s.ID =
      if s.Data.Timestamp < dumpTimeOf cm then some s.Data else none) ∧
    mapGet (oplogDiff (S1 ++ s :: S2) cm [] []).2.1 s.ID = none ∧
    mapGet (oplogDiff (S1 ++ s :: S2) cm [] []).1 s.ID = none ∧
    (∀ p ∈ cm, p.2.Timestamp ≤ dumpTimeOf cm) ∧
    (dumpTimeOf cm = 0 ∨ ∃ p ∈ cm, p.2.Timestamp = dumpTimeOf cm) := by
  intro S1 S2 s cm hS1 hS2 hcm hev
  have hfold : oplogDiff (S1 ++ s :: S2) cm [] [] =
      (s :: S2).foldl (diffStep (dumpTimeOf cm))
        (S1.foldl (diffStep (dumpTimeOf cm)) (cm, [], [])) := by
    simp [oplogDiff, List.foldl_append]
  rcases hm1 : S1.foldl (diffStep (dumpTimeOf cm)) (cm, [], []) with ⟨cm1, um1, dm1⟩
  have hcm1 : mapGet cm1 s.ID = none := by
    have := @diffScan_cm_none (dumpTimeOf cm) s.ID S1 cm [] [] hcm
    rw [hm1] at this
    exact this
  have huntouched1 := @diffScan_untouched (dumpTimeOf cm) s.ID S1 cm [] [] hS1
  rw [hm1] at huntouched1
  have hum1 : mapGet um1 s.ID = none := huntouched1.1
  have hdm1 : mapGet dm1 s.ID = none := huntouched1.2
  have hstep := @diffStep_at_self (dumpTimeOf cm) cm1 um1 dm1 s hev hcm1
  rw [hfold, hm1, List.foldl_cons, hstep]
  by_cases hts : s.Data.Timestamp < dumpTimeOf cm
  · rw [if_pos hts]
    have hu2 := @diffScan_untouched (dumpTimeOf cm) s.ID S2 (mapDelete cm1 s.ID)
      um1 (mapInsert dm1 s.ID s.Data) hS2
    rcases hm2 : S2.foldl (diffStep (dumpTimeOf cm))
        (mapDelete cm1 s.ID, um1, mapInsert dm1 s.ID s.Data) with ⟨cm2, um2, dm2⟩
    rw [hm2] at hu2
    have hc2 : mapGet cm2 s.ID = none := by
      have hdel : mapGet (mapDelete cm1 s.ID) s.ID = none := by
        rw [mapGet_mapDelete, if_pos rfl]
      have := @diffScan_cm_none (dumpTimeOf cm) s.ID S2 (mapDelete cm1 s.ID) um1
        (mapInsert dm1 s.ID s.Data) hdel
      rw [hm2] at this
      exact this
    refine ⟨?_, ?_, hc2, dumpTimeOf_ub cm, dumpTimeOf_attained cm⟩
    · rw [if_pos hts, hu2.2, mapGet_mapInsert, if_pos rfl]
    · rw [hu2.1, hum1]
  · rw [if_neg hts]
    have hu2 := @diffScan_untouched (dumpTimeOf cm) s.ID S2 cm1 um1 dm1 hS2
    rcases hm2 : S2.foldl (diffStep (dumpTimeOf cm)) (cm1, um1, dm1)
      with ⟨cm2, um2, dm2⟩
    rw [hm2] at hu2
    have hc2 : mapGet cm2 s.ID = none := by
      have := @diffScan_cm_none (dumpTimeOf cm) s.ID S2 cm1 um1 dm1 hcm1
      rw [hm2] at this
      exact this
    refine ⟨?_, ?_, hc2, dumpTimeOf_ub cm, dumpTimeOf_attained cm⟩
    · rw [if_neg hts, hu2.2, hdm1]
    · rw [hu2.1, hum1]

/-- C8 witness: the spec's differ-delete scenario — create holds A with
timestamp 100, storage holds A (insert, ts 100) and B (insert, ts 50):
B lands in the delete map. -/
theorem C8_witness :
    mapGet (oplogDiff
      [⟨"video/A", "insert", 5, ⟨"A", "video", [], 100⟩⟩,
       ⟨"video/B", "insert", 6, ⟨"B", "video", [], 50⟩⟩]
      [("video/A", ⟨"A", "video", [], 100⟩)] [] []).2.2 "video/B" =
      some ⟨"B", "video", [], 50⟩ := by
  have h := C8_diff_delete_map
    [⟨"video/A", "insert", 5, ⟨"A", "video", [], 100⟩⟩] []
    ⟨"video/B", "insert", 6, ⟨"B", "video", [], 50⟩⟩
    [("video/A", ⟨"A", "video", [], 100⟩)]
    (by decide) (by decide) (by decide) (by decide)
  have h1 := h.1
  rw [if_pos (by decide)] at h1
  exact h1

/-- C4: the replicate-branch query (oplog.go lines 381-398) carries the
`event = "insert"` restriction exactly when the cursor's fallback flag
is false; with the restriction every emitted state is an insert, and
without it (fallback mode) every matching state — delete tombstones
included — is emitted, provided the paging loop terminates within the
given fuel and the page size is positive.  (The branch itself is
unreachable through Tail, see the C1 theorem; this settles what the
branch does as written.) -/
theorem C4_fallback_event_restriction :
    ∀ (db : Db) (f : OpLogFilter) (pageSize fuel : Nat) (int64 : Int)
      (fb : Bool) (out : List objectState),
    0 < pageSize →
    replicatePages db f pageSize fuel int64 fb = some out →
    ((replicateQuery f int64 fb (oplogLastID db)).eventInsert = !fb) ∧
    (fb = false → ∀ s ∈ out, s.Event = "insert") ∧
    (fb = true → ∀ s ∈ db.states, s.Event = "delete" →
      stateMatches (replicateQuery f int64 fb (oplogLastID db)) s = true →
      s ∈ out) := by
  intro db f pageSize fuel int64 fb out hn h
  rw [replicatePages, Option.map_eq_some'] at h
  obtain ⟨tr, htr, hout⟩ := h
  refine ⟨rfl, ?_, ?_⟩
  · rintro rfl s hs
    rw [← hout] at hs
    rw [List.mem_flatten] at hs
    obtain ⟨pg, hpg, hspg⟩ := hs
    obtain ⟨t, ht, rfl⟩ := List.mem_map.mp hpg
    have hq := traceAux_pages htr t ht
    have hm := hq.2.2.2 s hspg
    have hins : (!t.query.eventInsert || s.Event == "insert") = true :=
      (stateMatches_decomp hm).2.2.2
    rw [hq.1] at hins
    simp only [replicateQuery, Bool.not_false, Bool.not_true,
      Bool.false_or] at hins
    exact eq_of_beq hins
  · rintro rfl s hsdb _ hsm
    rw [← hout]
    exact traceAux_coverage hn htr s hsdb hsm

/-- C4 witness: in fallback mode over the store with a tombstone, the
replicate output contains the tombstone. -/
theorem C4_witness :
    exTomb ∈ ([exState, exTomb] : List objectState) :=
  (C4_fallback_event_restriction exDbTomb noFilter 1000 3 0 true
    [exState, exTomb] (by decide) rfl).2.2 rfl exTomb (by decide) rfl
    (by decide)

/-- C6: in the replicate paging loop started from the replicate query,
whenever a page is followed by another page it was full (its length is
exactly the page size) and the next page's query sets the inclusive
lower ts bound `$gte` to the last emitted state's ts — inclusivity
witnessed by the boundary state itself satisfying the re-issued bound —
and the trace always ends with a page of fewer than pageSize items,
i.e. the loop terminates exactly when a page comes up short. -/
theorem C6_paging_loop :
    ∀ (db : Db) (f : OpLogFilter) (pageSize fuel : Nat) (int64 : Int)
      (fb : Bool) (tr : List PageTrace),
    0 < pageSize →
    replicateTraceAux db pageSize fuel
      (replicateQuery f int64 fb (oplogLastID db)) none = some tr →
    (∀ (k : Nat) (a b : PageTrace), tr[k]? = some a → tr[k+1]? = some b →
      a.page.length = pageSize ∧ ∃ le, a.page.getLast? = some le ∧
        b.query.gte = some le.Timestamp ∧ tsGteOk b.query.gte le = true) ∧
    (∀ a, tr.getLast? = some a → a.page.length < pageSize) := by
  intro db f pageSize fuel int64 fb tr hn htr
  exact ⟨traceAux_chain hn htr, traceAux_last hn htr⟩

/-- C6 witness: the three-page run over the paging example store at
page size two: the first page is full and the second query's lower
bound is the first page's last ts (20), inclusively. -/
theorem C6_witness :
    ([exS10, exS20] : List objectState).length = 2 ∧
    ∃ le, ([exS10, exS20] : List objectState).getLast? = some le ∧
      (⟨noFilter, some 20, some 100, true⟩ : StatesQuery).gte =
        some le.Timestamp ∧
      tsGteOk (⟨noFilter, some 20, some 100, true⟩ : StatesQuery).gte le =
        true :=
  (C6_paging_loop exDbPages noFilter 2 6 0 false
    [⟨⟨noFilter, none, some 100, true⟩, [exS10, exS20]⟩,
     ⟨⟨noFilter, some 20, some 100, true⟩, [exS20, exS30]⟩,
     ⟨⟨noFilter, some 30, some 100, true⟩, [exS30]⟩]
    (by decide) rfl).1 0
    ⟨⟨noFilter, none, some 100, true⟩, [exS10, exS20]⟩
    ⟨⟨noFilter, some 20, some 100, true⟩, [exS20, exS30]⟩ rfl rfl
